import Mathlib

/-!
Shallow embedding of the reconciliation and batched-synchronization core of
the seller-apis repository (src/seller.py for the Ozon target and
src/market.py for the Yandex.Market target), together with theorems settling
the specification claims about it.

Modelling conventions:
* Feed records (`watch_remnants` rows) carry the three fields the core reads:
  the code (Python key "Код"), the quantity (key "Количество") and the price
  (key "Цена").  All three are modelled as strings; Python's `str(...)`
  coercion on them is then the identity.
* A Python function that can raise (`int(...)` on a non-numeric string) is
  embedded as an `Option`-valued function, `none` meaning the call raises.
* `create_stocks` mutates its `offer_ids` list argument in place
  (`offer_ids.remove(...)`).  The embedding returns the pair of the produced
  stock list and the final state of that list, so the mutation is visible.
* Python dict values are dynamically typed; where a claim turns on the
  runtime type of a field (the seller price payload), the field is embedded
  as `PyVal`, a string-or-int value.
-/

/-- An untyped Python scalar value as it appears in a payload dict: either a
`str` or an `int`. -/
inductive PyVal where
  | pyStr : String → PyVal
  | pyInt : Int → PyVal
deriving DecidableEq

/-- One row of the external feed (`watch_remnants`): the fields read by the
core, keys "Код" (code), "Количество" (quantity), "Цена" (price), all
modelled as strings. -/
structure FeedRecord where
  code : String
  quantity : String
  price : String
deriving DecidableEq

/-- Numeric value of a list of decimal digit characters. -/
def digitsToNat (cs : List Char) : Nat :=
  cs.foldl (fun a c => 10 * a + (c.toNat - Char.toNat '0')) 0

/-- Surrounding whitespace removed from a character list, as Python's
`str.strip()` does before `int(...)` parses. -/
def pyStrip (cs : List Char) : List Char :=
  ((cs.dropWhile Char.isWhitespace).reverse.dropWhile Char.isWhitespace).reverse

/-- Embeds CPython's `int(s)` on an ordinary decimal string: surrounding
whitespace is stripped, an optional single sign is allowed, and the rest
must be one or more decimal digits; any other input raises `ValueError`
(`none`).  (Underscore digit grouping, accepted by CPython, is not
modelled; no claim touches it.) -/
def pyIntParse (s : String) : Option Int :=
  match pyStrip s.toList with
  | [] => none
  | c :: rest =>
    let signed : Int × List Char :=
      if c = '-' then (-1, rest) else if c = '+' then (1, rest) else (1, c :: rest)
    if signed.2 ≠ [] ∧ signed.2.all Char.isDigit then
      some (signed.1 * (digitsToNat signed.2 : Int))
    else none

/-- Embeds the quantity branch of `create_stocks` (identical in
src/seller.py lines 198-204 and src/market.py lines 148-154): the string
">10" maps to 100, the string "1" maps to 0, and any other quantity is
passed to `int(...)`, which raises (`none`) when not an integer literal. -/
def classify_quantity (raw : String) : Option Int :=
  if raw = ">10" then some 100
  else if raw = "1" then some 0
  else pyIntParse raw

/-- Embeds `price_conversion` from src/seller.py:
`re.sub("[^0-9]", "", price.split(".")[0])` — keep the part before the
first '.' (Python's `split(".")[0]` is the longest prefix containing no
'.'), then delete every non-[0-9] character.  The result is a `String`
(the Python function is annotated and used as `-> str`). -/
def price_conversion (price : String) : String :=
  String.mk ((price.toList.takeWhile (fun c => c ≠ '.')).filter Char.isDigit)

/-- Embeds `range(0, stop, step)` for a positive step: the ascending
multiples of `step` below `stop`, of which there are ⌈stop/step⌉. -/
def pyRangeUp (stop step : Nat) : List Nat :=
  (List.range ((stop + step - 1) / step)).map (· * step)

/-- Embeds the generator `divide` from src/seller.py, forced to a list as
its callers do with `list(divide(...))`: for `i in range(0, len(lst), n)`
yield the slice `lst[i : i + n]`.  A zero step makes `range` raise
`ValueError` (`none`); a negative step makes `range(0, len(lst), n)` empty
(the length is never negative), so nothing is yielded. -/
def divide {α : Type} (lst : List α) (n : Int) : Option (List (List α)) :=
  if n = 0 then none
  else if n < 0 then some []
  else some ((pyRangeUp lst.length n.toNat).map
    (fun i => (lst.drop i).take n.toNat))

namespace Seller

/-- One stock entry of the Ozon update payload built by
src/seller.py `create_stocks`. -/
structure StockUpdate where
  offer_id : String
  stock : Int
deriving DecidableEq

/-- The matching pass of src/seller.py `create_stocks` (lines 195-206): walk
the feed; when a record's code is in the current `offer_ids` list, classify
its quantity, append a stock entry, and remove that code from `offer_ids`
(Python `list.remove` deletes the first occurrence).  Returns the appended
entries together with the final state of the `offer_ids` list; `none` when
`int(...)` raises on some matched record's quantity. -/
def create_stocks_loop (watch_remnants : List FeedRecord) (offer_ids : List String) :
    Option (List StockUpdate × List String) :=
  match watch_remnants with
  | [] => some ([], offer_ids)
  | w :: rest =>
    if w.code ∈ offer_ids then
      match classify_quantity w.quantity with
      | none => none
      | some q =>
        match create_stocks_loop rest (offer_ids.erase w.code) with
        | none => none
        | some (st, rem) => some (⟨w.code, q⟩ :: st, rem)
    else create_stocks_loop rest offer_ids

/-- Embeds src/seller.py `create_stocks` (lines 176-210): the matching pass,
then a zero-stock entry for every code left in the (now mutated)
`offer_ids` list.  The second component is the final state of the
`offer_ids` list the caller passed in — the in-place mutation the caller
observes. -/
def create_stocks (watch_remnants : List FeedRecord) (offer_ids : List String) :
    Option (List StockUpdate × List String) :=
  match create_stocks_loop watch_remnants offer_ids with
  | none => none
  | some (st, rem) => some (st ++ rem.map (fun i => ⟨i, 0⟩), rem)

/-- One price entry of the Ozon update payload built by src/seller.py
`create_prices`.  The `price` field holds whatever Python value
`price_conversion` returned — a `str`. -/
structure PriceUpdate where
  auto_action_enabled : String
  currency_code : String
  offer_id : String
  old_price : String
  price : PyVal
deriving DecidableEq

/-- Embeds src/seller.py `create_prices` (lines 213-242): one price entry
per feed record whose code is in `offer_ids` (no mutation of `offer_ids`). -/
def create_prices (watch_remnants : List FeedRecord) (offer_ids : List String) :
    List PriceUpdate :=
  watch_remnants.filterMap (fun w =>
    if w.code ∈ offer_ids then
      some ⟨"UNKNOWN", "RUB", w.code, "0", PyVal.pyStr (price_conversion w.price)⟩
    else none)

end Seller

namespace Market

/-- One element of the `items` list of a Yandex.Market stock entry
(src/market.py lines 159-166): a count, the literal type "FIT" and the
`updatedAt` timestamp taken from `datetime.datetime.utcnow()` at call
time. -/
structure StockItem where
  count : Int
  type : String
  updatedAt : String
deriving DecidableEq

/-- One stock entry of the Yandex.Market update payload built by
src/market.py `create_stocks`. -/
structure StockUpdate where
  sku : String
  warehouseId : String
  items : List StockItem
deriving DecidableEq

/-- The matching pass of src/market.py `create_stocks` (lines 146-168):
same control flow as the seller's, but the appended entry is the
Yandex.Market envelope carrying the warehouse id and the `date` string the
function computed from the wall clock on entry.  Returns the appended
entries and the final state of the `offer_ids` list; `none` when `int(...)`
raises on a matched record's quantity. -/
def create_stocks_loop (watch_remnants : List FeedRecord) (offer_ids : List String)
    (warehouse_id date : String) : Option (List StockUpdate × List String) :=
  match watch_remnants with
  | [] => some ([], offer_ids)
  | w :: rest =>
    if w.code ∈ offer_ids then
      match classify_quantity w.quantity with
      | none => none
      | some q =>
        match create_stocks_loop rest (offer_ids.erase w.code) warehouse_id date with
        | none => none
        | some (st, rem) => some (⟨w.code, warehouse_id, [⟨q, "FIT", date⟩]⟩ :: st, rem)
    else create_stocks_loop rest offer_ids warehouse_id date

/-- Embeds src/market.py `create_stocks` (lines 132-183).  The wall-clock
timestamp `date` (Python `str(datetime.datetime.utcnow().replace(microsecond=0).isoformat() + "Z")`)
is an explicit input here: it is read from the environment, not from the
feed or the catalog.  The second component is the final state of the
mutated `offer_ids` list. -/
def create_stocks (watch_remnants : List FeedRecord) (offer_ids : List String)
    (warehouse_id date : String) : Option (List StockUpdate × List String) :=
  match create_stocks_loop watch_remnants offer_ids warehouse_id date with
  | none => none
  | some (st, rem) =>
    some (st ++ rem.map (fun i => ⟨i, warehouse_id, [⟨0, "FIT", date⟩]⟩), rem)

/-- One price entry of the Yandex.Market update payload built by
src/market.py `create_prices`: the nested `price` object holds
`int(price_conversion(...))` — an `int` — and the currency "RUR". -/
structure PriceUpdate where
  id : String
  value : Int
  currencyId : String
deriving DecidableEq

/-- Embeds src/market.py `create_prices` (lines 186-208): one price entry
per feed record whose code is in `offer_ids`; `none` when `int(...)` raises
on the converted price of a matched record (as it does when
`price_conversion` returns the empty string). -/
def create_prices (watch_remnants : List FeedRecord) (offer_ids : List String) :
    Option (List PriceUpdate) :=
  match watch_remnants with
  | [] => some []
  | w :: rest =>
    if w.code ∈ offer_ids then
      match pyIntParse (price_conversion w.price) with
      | none => none
      | some v =>
        match create_prices rest offer_ids with
        | none => none
        | some ps => some (⟨w.code, v, "RUR"⟩ :: ps)
    else create_prices rest offer_ids

end Market

namespace Seller

/-- One product record of an Ozon catalog page, reduced to the field the
paginator reads (`product.get("offer_id")`). -/
structure Product where
  offer_id : String
deriving DecidableEq

/-- One page response of the Ozon catalog endpoint as read by
src/seller.py `get_offer_ids`: the `items` list, the reported `total` and
the continuation cursor `last_id`. -/
structure Page where
  items : List Product
  total : Int
  last_id : String

/-- The `while True` page loop of src/seller.py `get_offer_ids`
(lines 70-76), with the endpoint abstracted as a response function `api`
from the cursor to a page.  `fuel` bounds the number of iterations the
embedding unfolds; the Python loop has no such bound, so a run that
returns `none` at every fuel value is a run that never terminates.  The
loop extends the accumulator with the page's items, takes the reported
total and the new cursor, and exits only when the total equals the number
of accumulated items. -/
def get_offer_ids_loop (api : String → Page) : Nat → String → List Product →
    Option (List Product)
  | 0, _, _ => none
  | fuel + 1, last_id, acc =>
    let p := api last_id
    let acc2 := acc ++ p.items
    if p.total = (acc2.length : Int) then some acc2
    else get_offer_ids_loop api fuel p.last_id acc2

/-- Embeds src/seller.py `get_offer_ids` (lines 50-80): run the page loop
from the empty cursor and empty accumulator, then extract each product's
`offer_id`. -/
def get_offer_ids (api : String → Page) (fuel : Nat) : Option (List String) :=
  (get_offer_ids_loop api fuel "" []).map (fun products => products.map Product.offer_id)

/-- A malformed Ozon endpoint: every page reports `total = 5`, carries no
items, and returns the same present-but-unchanged cursor "X". -/
def stuckApi : String → Page := fun _ => ⟨[], 5, "X"⟩

end Seller

namespace Market

/-- One page response of the Yandex.Market catalog endpoint as read by
src/market.py `get_offer_ids`: the `offerMappingEntries` list (each entry
reduced to the `offer.shopSku` string the paginator extracts) and the
continuation cursor `paging.nextPageToken`. -/
structure Page where
  offerMappingEntries : List String
  nextPageToken : String

/-- The `while True` page loop of src/market.py `get_offer_ids`
(lines 120-125), with the endpoint abstracted as a response function.
`fuel` bounds the number of iterations the embedding unfolds; the Python
loop has no such bound, so a run returning `none` at every fuel value never
terminates.  The loop extends the accumulator with the page's entries,
takes the next-page token, and exits only when that token is falsy (the
empty string). -/
def get_offer_ids_loop (api : String → Page) : Nat → String → List String →
    Option (List String)
  | 0, _, _ => none
  | fuel + 1, page, acc =>
    let p := api page
    let acc2 := acc ++ p.offerMappingEntries
    if p.nextPageToken = "" then some acc2
    else get_offer_ids_loop api fuel p.nextPageToken acc2

/-- Embeds src/market.py `get_offer_ids` (lines 104-129): run the page loop
from the empty page token and empty accumulator.  (The shopSku extraction
is folded into `Page.offerMappingEntries`.) -/
def get_offer_ids (api : String → Page) (fuel : Nat) : Option (List String) :=
  get_offer_ids_loop api fuel "" []

/-- A malformed Yandex.Market endpoint: every page carries one entry and
the same present-but-unchanged next-page token "X". -/
def stuckApi : String → Page := fun _ => ⟨["p"], "X"⟩

end Market

/-- A Yandex.Market stock entry with its `updatedAt` timestamps erased: the
part of the payload that does not depend on the wall clock. -/
def stripDate (s : Market.StockUpdate) : String × String × List (Int × String) :=
  (s.sku, s.warehouseId, s.items.map (fun it => (it.count, it.type)))

/-- C4: the quantity classifier implements exactly the closed three-case
rule — ">10" maps to 100, "1" maps to 0, and every other input is handed to
integer parsing, which fails on non-integer input such as "abc" and
performs no range logic on "7" or "2". -/
theorem c4_quantity_classifier_three_cases :
    classify_quantity ">10" = some 100 ∧ classify_quantity "1" = some 0 ∧
    classify_quantity "7" = some 7 ∧ classify_quantity "2" = some 2 ∧
    classify_quantity "abc" = none ∧
    ∀ raw : String, raw ≠ ">10" → raw ≠ "1" → classify_quantity raw = pyIntParse raw := by
  refine ⟨by decide, by decide, by decide, by decide, by decide, ?_⟩
  intro raw h1 h2
  simp [classify_quantity, h1, h2]

/-- Witness for C4: the classifier at the concrete input "5" is plain
integer parsing. -/
theorem c4_quantity_classifier_three_cases_witness :
    classify_quantity "5" = pyIntParse "5" :=
  c4_quantity_classifier_three_cases.2.2.2.2.2 "5" (by decide) (by decide)

/-- C5 (code_bug evidence): on the malformed price "abc" (no digit before
the first '.'), `price_conversion` silently returns the empty string, the
seller target emits a price update whose price field is the empty string
with no error, and the market target raises (`int("")` fails) — a silent
empty value on one path and an exception on the other, not a consistent
reportable conversion error. -/
theorem c5_malformed_price_not_reported :
    price_conversion "abc" = "" ∧
    Seller.create_prices [⟨"A", "5", "abc"⟩] ["A"] =
      [⟨"UNKNOWN", "RUB", "A", "0", PyVal.pyStr ""⟩] ∧
    Market.create_prices [⟨"A", "5", "abc"⟩] ["A"] = none := by decide

/-- C6 (counterexample): on the spec's own example input the seller's price
payload carries the digit string "5990" — a `str`, not the integer 5990 —
so `price_conversion` does not return an int. -/
theorem c6_price_is_string_counterexample :
    Seller.create_prices [⟨"A", "5", "5\x27990.00 руб."⟩] ["A"] =
      [⟨"UNKNOWN", "RUB", "A", "0", PyVal.pyStr "5990"⟩] ∧
    PyVal.pyStr "5990" ≠ PyVal.pyInt 5990 := by decide

/-- C6 (amended): `price_conversion` returns the digit STRING obtained from
the part before the first '.' — "5990" and "12" on the spec's examples —
and the integer values 5990 and 12 arise where the market target applies
`int(...)` to that string. -/
theorem c6_price_normalization_amended :
    price_conversion "5\x27990.00 руб." = "5990" ∧
    price_conversion "12.50" = "12" ∧
    pyIntParse (price_conversion "5\x27990.00 руб.") = some 5990 ∧
    pyIntParse (price_conversion "12.50") = some 12 ∧
    Market.create_prices [⟨"A", "5", "5\x27990.00 руб."⟩] ["A"] =
      some [⟨"A", 5990, "RUR"⟩] := by decide

/-- C2 (code_bug evidence): `create_stocks` consumes the caller's
`offer_ids` list in place — after the call on feed [code "A"] and list
["A"] the caller's list is empty, not ["A"], and the subsequent
`create_prices` call in src/seller.py `main` on that same mutated list
produces no price updates at all. -/
theorem c2_caller_list_mutated :
    Seller.create_stocks [⟨"A", "5", "5\x27990.00 руб."⟩] ["A"] =
      some ([⟨"A", 5⟩], []) ∧
    ([] : List String) ≠ ["A"] ∧
    Seller.create_prices [⟨"A", "5", "5\x27990.00 руб."⟩] [] = [] := by decide

/-- C3 (code_bug evidence): on a pagination response whose cursor is
present but never advances (seller: total 5 never reached; market:
nextPageToken "X" forever), the page loop of `get_offer_ids` never
terminates — it is still running at every fuel bound, instead of raising a
fatal protocol error. -/
theorem c3_stuck_pagination_never_terminates :
    (∀ fuel : Nat, Seller.get_offer_ids Seller.stuckApi fuel = none) ∧
    (∀ fuel : Nat, Market.get_offer_ids Market.stuckApi fuel = none) := by
  constructor
  · have h : ∀ (fuel : Nat) (last : String),
        Seller.get_offer_ids_loop Seller.stuckApi fuel last [] = none := by
      intro fuel
      induction fuel with
      | zero => intro last; rfl
      | succ k ih =>
        intro last
        simpa [Seller.get_offer_ids_loop, Seller.stuckApi] using ih "X"
    intro fuel
    simp [Seller.get_offer_ids, h]
  · have h : ∀ (fuel : Nat) (page : String) (acc : List String),
        Market.get_offer_ids_loop Market.stuckApi fuel page acc = none := by
      intro fuel
      induction fuel with
      | zero => intro page acc; rfl
      | succ k ih =>
        intro page acc
        simpa [Market.get_offer_ids_loop, Market.stuckApi] using ih "X" (acc ++ ["p"])
    intro fuel
    simp [Market.get_offer_ids, h]

/-- C9: `divide` is well behaved only for chunk size at least 1 — with
chunk size 0 it raises (step-zero `range` error) on any non-empty list, and
with a negative chunk size it yields no chunks at all, silently dropping
every element. -/
theorem c9_divide_degenerate_chunk_sizes :
    (∀ lst : List Nat, lst ≠ [] → divide lst 0 = none) ∧
    (∀ (lst : List Nat) (n : Int), n < 0 → divide lst n = some []) := by
  constructor
  · intro lst h
    simp [divide]
  · intro lst n hn
    have h0 : n ≠ 0 := by omega
    simp [divide, h0, hn]

/-- Witness for C9 at the concrete list [1, 2, 3] with chunk sizes 0
and -2. -/
theorem c9_divide_degenerate_chunk_sizes_witness :
    divide [1, 2, 3] 0 = none ∧ divide [1, 2, 3] (-2) = some [] :=
  ⟨c9_divide_degenerate_chunk_sizes.1 [1, 2, 3] (by decide),
   c9_divide_degenerate_chunk_sizes.2 [1, 2, 3] (-2) (by decide)⟩

/-- C10: when the listing-id list contains the same id twice and a feed
record matches it, `list.remove` deletes only the first occurrence, so the
output holds two stock entries for that id — the matched entry with the
classified quantity followed by a zero-stock filler — and one copy of the
id is still left in the (mutated) list. -/
theorem c10_duplicate_listing_id_two_entries (w : FeedRecord) (q : Int)
    (h : classify_quantity w.quantity = some q) :
    Seller.create_stocks [w] [w.code, w.code] =
      some ([⟨w.code, q⟩, ⟨w.code, 0⟩], [w.code]) := by
  simp [Seller.create_stocks, Seller.create_stocks_loop, h]

/-- Witness for C10 at the concrete record with code "A" and quantity
"5". -/
theorem c10_duplicate_listing_id_two_entries_witness :
    Seller.create_stocks [⟨"A", "5", "x"⟩] ["A", "A"] =
      some ([⟨"A", 5⟩, ⟨"A", 0⟩], ["A"]) :=
  c10_duplicate_listing_id_two_entries ⟨"A", "5", "x"⟩ 5 (by decide)

/-- The matching pass moves ids one at a time from the listing-id list into
the emitted entries: the emitted offer ids together with the final list are
a permutation of the initial `offer_ids` list. -/
theorem seller_loop_ids_perm (F : List FeedRecord) :
    ∀ (S : List String) (st : List Seller.StockUpdate) (rem : List String),
      Seller.create_stocks_loop F S = some (st, rem) →
      (st.map Seller.StockUpdate.offer_id ++ rem).Perm S := by
  induction F with
  | nil =>
    intro S st rem h
    simp only [Seller.create_stocks_loop, Option.some.injEq, Prod.mk.injEq] at h
    obtain ⟨h1, h2⟩ := h
    subst h1; subst h2
    simp
  | cons w rest ih =>
    intro S st rem h
    by_cases hmem : w.code ∈ S
    · simp only [Seller.create_stocks_loop, if_pos hmem] at h
      cases hq : classify_quantity w.quantity with
      | none => rw [hq] at h; cases h
      | some q =>
        rw [hq] at h
        cases hrec : Seller.create_stocks_loop rest (S.erase w.code) with
        | none => rw [hrec] at h; cases h
        | some p =>
          obtain ⟨st2, rem2⟩ := p
          rw [hrec] at h
          simp only [Option.some.injEq, Prod.mk.injEq] at h
          obtain ⟨h1, h2⟩ := h
          subst h1; subst h2
          have hp := ih (S.erase w.code) st2 rem2 hrec
          simpa using (hp.cons w.code).trans (List.perm_cons_erase hmem).symm
    · simp only [Seller.create_stocks_loop, if_neg hmem] at h
      exact ih S st rem h

/-- Every entry emitted by the matching pass comes from a feed record whose
code it carries and whose classified quantity it holds. -/
theorem seller_loop_stock_source (F : List FeedRecord) :
    ∀ (S : List String) (st : List Seller.StockUpdate) (rem : List String),
      Seller.create_stocks_loop F S = some (st, rem) →
      ∀ u ∈ st, ∃ w ∈ F, w.code = u.offer_id ∧
        classify_quantity w.quantity = some u.stock := by
  induction F with
  | nil =>
    intro S st rem h
    simp only [Seller.create_stocks_loop, Option.some.injEq, Prod.mk.injEq] at h
    obtain ⟨h1, h2⟩ := h
    subst h1
    intro u hu
    simp at hu
  | cons w rest ih =>
    intro S st rem h
    by_cases hmem : w.code ∈ S
    · simp only [Seller.create_stocks_loop, if_pos hmem] at h
      cases hq : classify_quantity w.quantity with
      | none => rw [hq] at h; cases h
      | some q =>
        rw [hq] at h
        cases hrec : Seller.create_stocks_loop rest (S.erase w.code) with
        | none => rw [hrec] at h; cases h
        | some p =>
          obtain ⟨st2, rem2⟩ := p
          rw [hrec] at h
          simp only [Option.some.injEq, Prod.mk.injEq] at h
          obtain ⟨h1, h2⟩ := h
          subst h1; subst h2
          intro u hu
          rcases List.mem_cons.mp hu with hu | hu
          · exact ⟨w, List.mem_cons_self w rest, by simp [hu, hq]⟩
          · obtain ⟨w2, hw2, he⟩ := ih (S.erase w.code) st2 rem2 hrec u hu
            exact ⟨w2, List.mem_cons_of_mem w hw2, he⟩
    · simp only [Seller.create_stocks_loop, if_neg hmem] at h
      intro u hu
      obtain ⟨w2, hw2, he⟩ := ih S st rem h u hu
      exact ⟨w2, List.mem_cons_of_mem w hw2, he⟩

/-- The market matching pass is the seller matching pass wearing the
Yandex.Market envelope: erasing the timestamps from its output gives
exactly the seller output dressed with the warehouse id and "FIT" type, and
the final listing-id lists agree.  In particular the timestamps never steer
the control flow. -/
theorem market_loop_strip_eq_seller (W d : String) (F : List FeedRecord) :
    ∀ S : List String,
      (Market.create_stocks_loop F S W d).map
        (fun r => (r.1.map stripDate, r.2)) =
      (Seller.create_stocks_loop F S).map
        (fun r => (r.1.map (fun u => (u.offer_id, W, [(u.stock, "FIT")])), r.2)) := by
  induction F with
  | nil => intro S; rfl
  | cons w rest ih =>
    intro S
    by_cases hmem : w.code ∈ S
    · simp only [Market.create_stocks_loop, Seller.create_stocks_loop, if_pos hmem]
      cases hq : classify_quantity w.quantity with
      | none => rfl
      | some q =>
        have h := ih (S.erase w.code)
        cases h1 : Market.create_stocks_loop rest (S.erase w.code) W d with
        | none =>
          rw [h1] at h
          cases h2 : Seller.create_stocks_loop rest (S.erase w.code) with
          | none => rfl
          | some p2 => rw [h2] at h; simp at h
        | some p1 =>
          rw [h1] at h
          cases h2 : Seller.create_stocks_loop rest (S.erase w.code) with
          | none => rw [h2] at h; simp at h
          | some p2 =>
            rw [h2] at h
            obtain ⟨st1, rem1⟩ := p1
            obtain ⟨st2, rem2⟩ := p2
            simp only [Option.map_some', Option.some.injEq, Prod.mk.injEq] at h ⊢
            exact ⟨by simp [stripDate, h.1], h.2⟩
    · simp only [Market.create_stocks_loop, Seller.create_stocks_loop, if_neg hmem]
      exact ih S

/-- C1: for a duplicate-free listing-id list, the stock updates produced by
reconciliation carry listing ids that equal the input ids exactly as a set —
each id exactly once (the id multiset is a permutation of the input and has
no duplicates), no id from outside, and every entry either is a zero-stock
filler or carries the classified quantity of a feed record with its code.
This holds for both the seller and the market `create_stocks`. -/
theorem c1_stock_ids_match_catalog_exactly (F : List FeedRecord)
    (S : List String) (hS : S.Nodup) :
    (∀ st rem, Seller.create_stocks F S = some (st, rem) →
      (st.map Seller.StockUpdate.offer_id).Perm S ∧
      (st.map Seller.StockUpdate.offer_id).Nodup ∧
      ∀ u ∈ st, u.stock = 0 ∨ ∃ w ∈ F, w.code = u.offer_id ∧
          classify_quantity w.quantity = some u.stock) ∧
    (∀ W d st rem, Market.create_stocks F S W d = some (st, rem) →
      (st.map Market.StockUpdate.sku).Perm S ∧
      (st.map Market.StockUpdate.sku).Nodup) := by
  constructor
  · intro st rem h
    cases hrec : Seller.create_stocks_loop F S with
    | none => simp [Seller.create_stocks, hrec] at h
    | some p =>
      obtain ⟨st0, rem0⟩ := p
      simp only [Seller.create_stocks, hrec, Option.some.injEq, Prod.mk.injEq] at h
      obtain ⟨h1, h2⟩ := h
      subst h1; subst h2
      have hperm : (st0.map Seller.StockUpdate.offer_id ++ rem0).Perm S :=
        seller_loop_ids_perm F S st0 rem0 hrec
      have hids : ((st0 ++ rem0.map (fun i => (⟨i, 0⟩ : Seller.StockUpdate))).map
          Seller.StockUpdate.offer_id) = st0.map Seller.StockUpdate.offer_id ++ rem0 := by
        simp [List.map_map, Function.comp_def]
      refine ⟨hids ▸ hperm, ?_, ?_⟩
      · exact (hids ▸ hperm).nodup_iff.mpr hS
      · intro u hu
        rcases List.mem_append.mp hu with hu | hu
        · exact Or.inr (seller_loop_stock_source F S st0 rem0 hrec u hu)
        · obtain ⟨i, _, rfl⟩ := List.mem_map.mp hu
          exact Or.inl rfl
  · intro W d st rem h
    cases hm : Market.create_stocks_loop F S W d with
    | none => simp [Market.create_stocks, hm] at h
    | some p1 =>
      obtain ⟨st1, rem1⟩ := p1
      simp only [Market.create_stocks, hm, Option.some.injEq, Prod.mk.injEq] at h
      obtain ⟨h1, h2⟩ := h
      subst h1; subst h2
      have hstr := market_loop_strip_eq_seller W d F S
      rw [hm] at hstr
      cases hs : Seller.create_stocks_loop F S with
      | none => rw [hs] at hstr; simp at hstr
      | some p2 =>
        obtain ⟨st2, rem2⟩ := p2
        rw [hs] at hstr
        simp only [Option.map_some', Option.some.injEq, Prod.mk.injEq] at hstr
        obtain ⟨hst, hrem⟩ := hstr
        have hsku : st1.map Market.StockUpdate.sku = st2.map Seller.StockUpdate.offer_id := by
          have := congrArg (List.map (fun x : String × String × List (Int × String) => x.1)) hst
          simpa [List.map_map, Function.comp_def, stripDate] using this
        have hperm : (st2.map Seller.StockUpdate.offer_id ++ rem2).Perm S :=
          seller_loop_ids_perm F S st2 rem2 hs
        have hids : ((st1 ++ rem1.map (fun i =>
            (⟨i, W, [⟨0, "FIT", d⟩]⟩ : Market.StockUpdate))).map Market.StockUpdate.sku) =
            st2.map Seller.StockUpdate.offer_id ++ rem2 := by
          simp [List.map_map, Function.comp_def, hsku, hrem]
        refine ⟨hids ▸ hperm, (hids ▸ hperm).nodup_iff.mpr hS⟩

/-- Witness for C1 at the feed with the single record (code "A",
quantity ">10") and the duplicate-free listing-id list ["A", "B"]: the
seller output is the matched entry (A, 100) followed by the filler (B, 0),
the market output the same content in the Yandex.Market envelope. -/
theorem c1_stock_ids_match_catalog_exactly_witness :
    ((([⟨"A", 100⟩, ⟨"B", 0⟩] : List Seller.StockUpdate).map
        Seller.StockUpdate.offer_id).Perm ["A", "B"] ∧
      (([⟨"A", 100⟩, ⟨"B", 0⟩] : List Seller.StockUpdate).map
        Seller.StockUpdate.offer_id).Nodup ∧
      ∀ u ∈ ([⟨"A", 100⟩, ⟨"B", 0⟩] : List Seller.StockUpdate),
        u.stock = 0 ∨ ∃ w ∈ [(⟨"A", ">10", "100.00 x"⟩ : FeedRecord)],
          w.code = u.offer_id ∧ classify_quantity w.quantity = some u.stock) ∧
    ((([⟨"A", "W", [⟨100, "FIT", "T"⟩]⟩, ⟨"B", "W", [⟨0, "FIT", "T"⟩]⟩] :
        List Market.StockUpdate).map Market.StockUpdate.sku).Perm ["A", "B"] ∧
      (([⟨"A", "W", [⟨100, "FIT", "T"⟩]⟩, ⟨"B", "W", [⟨0, "FIT", "T"⟩]⟩] :
        List Market.StockUpdate).map Market.StockUpdate.sku).Nodup) :=
  ⟨(c1_stock_ids_match_catalog_exactly [⟨"A", ">10", "100.00 x"⟩] ["A", "B"]
      (by decide)).1 [⟨"A", 100⟩, ⟨"B", 0⟩] ["B"] (by decide),
   (c1_stock_ids_match_catalog_exactly [⟨"A", ">10", "100.00 x"⟩] ["A", "B"]
      (by decide)).2 "W" "T"
      [⟨"A", "W", [⟨100, "FIT", "T"⟩]⟩, ⟨"B", "W", [⟨0, "FIT", "T"⟩]⟩] ["B"] (by decide)⟩

/-- C8 (amended): with the `updatedAt` timestamps erased, the market stock
payload and the final listing-id list are identical for runs at any two
wall-clock instants — the payload is a deterministic function of feed,
catalog and warehouse except for the updatedAt field, which records the run
time.  (The seller payloads and the market price payloads contain no
timestamp at all: their embeddings are functions of the feed and catalog
alone.) -/
theorem c8_amended_deterministic_up_to_timestamp (F : List FeedRecord)
    (S : List String) (W d1 d2 : String) :
    (Market.create_stocks F S W d1).map (fun r => (r.1.map stripDate, r.2)) =
    (Market.create_stocks F S W d2).map (fun r => (r.1.map stripDate, r.2)) := by
  have h := (market_loop_strip_eq_seller W d1 F S).trans
    (market_loop_strip_eq_seller W d2 F S).symm
  cases hm1 : Market.create_stocks_loop F S W d1 with
  | none =>
    cases hm2 : Market.create_stocks_loop F S W d2 with
    | none => simp [Market.create_stocks, hm1, hm2]
    | some p => rw [hm1, hm2] at h; simp at h
  | some p1 =>
    cases hm2 : Market.create_stocks_loop F S W d2 with
    | none => rw [hm1, hm2] at h; simp at h
    | some p2 =>
      obtain ⟨st1, rem1⟩ := p1
      obtain ⟨st2, rem2⟩ := p2
      rw [hm1, hm2] at h
      simp only [Option.map_some', Option.some.injEq, Prod.mk.injEq] at h
      obtain ⟨hst, hrem⟩ := h
      simp [Market.create_stocks, hm1, hm2, List.map_map, Function.comp_def,
        stripDate, hst, hrem]

/-- C8 (counterexample): two runs of the market reconciliation over the
same feed and catalog but at different wall-clock instants produce
different stock payloads — the `updatedAt` field records the run time, so
the payload is not a function of the feed and catalog alone. -/
theorem c8_payload_not_time_independent :
    Market.create_stocks [] ["A"] "W" "2024-01-01T00:00:00Z" ≠
      Market.create_stocks [] ["A"] "W" "2024-01-02T00:00:00Z" := by decide

/-- Joining the first `m` chunks of size `K` of a list gives its first
`m * K` elements. -/
theorem join_chunks {α : Type} (K : Nat) :
    ∀ (m : Nat) (lst : List α),
      ((List.range m).map (fun k => (lst.drop (k * K)).take K)).flatten =
        lst.take (m * K) := by
  intro m
  induction m with
  | zero => intro lst; simp
  | succ m ih =>
    intro lst
    rw [List.range_succ_eq_map, List.map_cons, List.map_map, List.flatten_cons]
    have hshift : ∀ k : Nat,
        ((fun k => (lst.drop (k * K)).take K) ∘ Nat.succ) k =
          (fun k => ((lst.drop K).drop (k * K)).take K) k := by
      intro k
      simp only [Function.comp_apply]
      rw [List.drop_drop, Nat.succ_mul, Nat.add_comm (k * K) K]
    rw [List.map_congr_left (fun k _ => hshift k), ih (lst.drop K)]
    rw [Nat.succ_mul, Nat.add_comm (m * K) K, List.take_add]
    simp

/-- C7: for every list and chunk size at least 1, `divide` yields exactly
⌈N/K⌉ chunks, each of at most K elements, every chunk except possibly the
last of exactly K elements, and the concatenation of the chunks in order is
the original list. -/
theorem c7_divide_chunking {α : Type} (lst : List α) (n : Int)
    (chunks : List (List α)) (hn : 1 ≤ n) (h : divide lst n = some chunks) :
    chunks.length = (lst.length + n.toNat - 1) / n.toNat ∧
    (∀ c ∈ chunks, c.length ≤ n.toNat) ∧
    (∀ i c, i + 1 < chunks.length → chunks[i]? = some c → c.length = n.toNat) ∧
    chunks.flatten = lst := by
  have h0 : n ≠ 0 := by omega
  have hneg : ¬ n < 0 := by omega
  set K := n.toNat with hKdef
  have hK : 1 ≤ K := by omega
  set L := lst.length with hLdef
  set m := (L + K - 1) / K with hmdef
  have hchunks : chunks = (List.range m).map (fun k => (lst.drop (k * K)).take K) := by
    simp only [divide, if_neg h0, if_neg hneg, Option.some.injEq, pyRangeUp,
      List.map_map] at h
    rw [← h]
    rfl
  have hdm := Nat.div_add_mod (L + K - 1) K
  have hmod : (L + K - 1) % K < K := Nat.mod_lt _ (by omega)
  have hcomm : K * ((L + K - 1) / K) = m * K := by rw [Nat.mul_comm]
  rw [hcomm] at hdm
  have hub : m * K ≤ L + K - 1 := by omega
  have hlb : L ≤ m * K := by omega
  subst hchunks
  refine ⟨by simp, ?_, ?_, ?_⟩
  · intro c hc
    obtain ⟨k, _, rfl⟩ := List.mem_map.mp hc
    calc ((lst.drop (k * K)).take K).length = min K (lst.drop (k * K)).length :=
          List.length_take K _
    _ ≤ K := Nat.min_le_left _ _
  · intro i c hi hic
    simp only [List.length_map, List.length_range] at hi
    rw [List.getElem?_map, List.getElem?_range (by omega : i < m)] at hic
    simp only [Option.map_some', Option.some.injEq] at hic
    subst hic
    have hmul : i * K + 2 * K ≤ m * K := by
      have h2 := Nat.mul_le_mul_right K (show i + 2 ≤ m by omega)
      rwa [Nat.add_mul] at h2
    rw [List.length_take, List.length_drop]
    omega
  · rw [join_chunks K m lst]
    exact List.take_of_length_le (by omega)

/-- Witness for C7 at the concrete list [1, 2, 3, 4, 5] and chunk size 2:
the three chunks [1, 2], [3, 4], [5]. -/
theorem c7_divide_chunking_witness :
    ([[1, 2], [3, 4], [5]] : List (List Nat)).length =
      (([1, 2, 3, 4, 5] : List Nat).length + (2 : Int).toNat - 1) / (2 : Int).toNat ∧
    (∀ c ∈ ([[1, 2], [3, 4], [5]] : List (List Nat)), c.length ≤ (2 : Int).toNat) ∧
    (∀ i c, i + 1 < ([[1, 2], [3, 4], [5]] : List (List Nat)).length →
      ([[1, 2], [3, 4], [5]] : List (List Nat))[i]? = some c →
      c.length = (2 : Int).toNat) ∧
    ([[1, 2], [3, 4], [5]] : List (List Nat)).flatten = [1, 2, 3, 4, 5] :=
  c7_divide_chunking [1, 2, 3, 4, 5] 2 [[1, 2], [3, 4], [5]] (by decide) (by decide)
